import Mathlib

/-!
Verification of `ultralytics/models/yolo/yoloe/train.py` (YOLOE trainer
variants). The Python code is shallowly embedded: external framework calls
(dataset builders, the text encoder, `check_det_dataset`) are abstracted as
function parameters, filesystem state (the embedding cache file) is passed
explicitly, and Python `assert` failures are modelled with `Except`.
-/

namespace YOLOE

/-! ## Embedding cache routine (`generate_data_embeddings`) -/

/-- Model of `torch.Tensor.split(batch)`: splits a list into consecutive
chunks of size `batch` (the last chunk may be shorter). -/
def splitChunks (n : Nat) : List α → List (List α)
  | [] => []
  | x :: xs => (x :: xs.take (n - 1)) :: splitChunks n (xs.drop (n - 1))
termination_by l => l.length
decreasing_by
  simp only [List.length_drop, List.length_cons]
  omega

/-- Outcome of one call to `generate_data_embeddings`: the returned
label-to-vector mapping, the cache-file contents after the call, and whether
the text model (tokenizer + encoder) was built and invoked. -/
structure EmbedOutcome (V : Type) where
  result : List (String × V)
  newCache : Option (List (String × V))
  encoderInvoked : Bool
  deriving Repr, DecidableEq

/-- Embedding of `YOLOETrainerFromScratch.generate_data_embeddings`.

`texts` is the label set (a Python `set`, so duplicate-free; the dict
comprehension `\x7btext: feat for text, feat in zip(texts, txt_feats)\x7d` is
modelled as `texts.zip feats`). `cache` is the contents of the file at
`cache_path` (`none` when the file does not exist). The tokenizer `tok` and
the per-row text encoder `enc` abstract `model.tokenize` /
`model.encode_text` of the `mobileclip:blt` text model; `encode_text` maps
each token row independently to a feature row, so encoding the
`split(batch)` chunks and concatenating with `torch.cat` is
`((splitChunks batch tokens).map (List.map enc)).join`. -/
def generate_data_embeddings {T V : Type} (tok : String → T) (enc : T → V)
    (texts : List String) (batch : Nat) (cache : Option (List (String × V))) :
    EmbedOutcome V :=
  match cache with
  | some stored => ⟨stored, some stored, false⟩
  | none =>
    let text_tokens := texts.map tok
    let txt_feats := ((splitChunks batch text_tokens).map (List.map enc)).flatten
    let txt_map := texts.zip txt_feats
    ⟨txt_map, some txt_map, true⟩

/-! ## Negative-label filter (`_get_neg_texts`) -/

/-- Embedding of `YOLOETrainerFromScratch._get_neg_texts`:
`[k for k, v in category_freq.items() if v >= threshold]`. The Python dict
`category_freq` is modelled as an association list in insertion order. -/
def get_neg_texts (category_freq : List (String × Nat)) (threshold : Nat) : List String :=
  (category_freq.filter (fun p => threshold ≤ p.2)).map Prod.fst

/-! ## Category-frequency aggregation (inside `build_dataset`) -/

/-- A constituent dataset, as `build_dataset` observes it: the path of its
image folder, the sequence of samples it yields when iterated, and the two
duck-typed optional attributes (`category_names`, `category_freq`) probed
with `hasattr`; `none` models an absent attribute. Sample payloads are
abstracted as `Nat` identifiers. -/
structure Dataset where
  img_path : String
  items : List Nat
  category_names : Option (List String)
  category_freq : Option (List (String × Nat))
  deriving Repr, DecidableEq

/-- Lookup in a Python-dict-as-association-list; a missing key reads as `0`,
matching `defaultdict(int)`. -/
def lookupFreq (freq : List (String × Nat)) (k : String) : Nat :=
  match freq.find? (fun p => p.1 = k) with
  | some p => p.2
  | none => 0

/-- One `category_freq[k] += v` update on the `defaultdict(int)`. -/
def bumpFreq (freq : List (String × Nat)) (k : String) (v : Nat) : List (String × Nat) :=
  match freq with
  | [] => [(k, v)]
  | p :: rest => if p.1 = k then (p.1, p.2 + v) :: rest else p :: bumpFreq rest k v

/-- Inner loop `for k, v in dataset.category_freq.items(): category_freq[k] += v`. -/
def addDatasetFreq (freq : List (String × Nat)) (entries : List (String × Nat)) :
    List (String × Nat) :=
  entries.foldl (fun f p => bumpFreq f p.1 p.2) freq

/-- Embedding of the aggregation loop of `YOLOETrainerFromScratch.build_dataset`:
datasets without a `category_freq` attribute are skipped with `continue`. -/
def categoryFreq (datasets : List Dataset) : List (String × Nat) :=
  datasets.foldl
    (fun f d =>
      match d.category_freq with
      | none => f
      | some entries => addDatasetFreq f entries)
    []

/-- Total count a single dataset contributes for label `k`: the sum of the
values of its `category_freq` entries with key `k`, and `0` when the dataset
has no `category_freq` attribute. -/
def datasetCount (d : Dataset) (k : String) : Nat :=
  match d.category_freq with
  | none => 0
  | some entries => ((entries.filter (fun p => p.1 = k)).map Prod.snd).sum

/-! ## Dataset assembly (`build_dataset`, train mode) -/

/-- A grounding-data entry: the dict `\x7b"img_path": ..., "json_file": ...\x7d`
found in the configuration's `grounding_data` list. -/
structure GroundingEntry where
  img_path : String
  json_file : String
  deriving Repr, DecidableEq

/-- An element of the dataset-source lists handed to `build_dataset` (and
produced by `get_dataset`): either a plain path string (a YOLO detection
dataset) or a grounding dict. -/
inductive DataEntry where
  | yolo (path : String)
  | grounding (g : GroundingEntry)
  deriving Repr, DecidableEq

/-- Value returned by `YOLOETrainerFromScratch.build_dataset` in train mode:
either a bare constituent dataset (single-source case) or a
`YOLOConcatDataset` wrapping the per-source datasets. -/
inductive BuiltDataset where
  | single (d : Dataset)
  | concat (ds : List Dataset)
  deriving Repr, DecidableEq

/-- Modelled from the spec: `YOLOConcatDataset` (imported from
`ultralytics.data`, not part of this fragment) merges its constituent
datasets "into one logical dataset (concatenation, order-preserving)", so
iterating the built dataset yields the constituents' samples in source
order; a bare dataset yields its own samples. -/
def BuiltDataset.samples : BuiltDataset → List Nat
  | .single d => d.items
  | .concat ds => (ds.map Dataset.items).flatten

/-- Per-entry dataset construction in `build_dataset`:
`build_yolo_dataset(...)` for a path string, `build_grounding(...)` for a
grounding dict. The two framework builders (and the trainer state they
close over: `self.args`, `self.training_data`, batch, stride) are abstracted
as the parameters `buildYolo` and `buildGrounding`. -/
def buildEntry (buildYolo : String → Dataset) (buildGrounding : GroundingEntry → Dataset) :
    DataEntry → Dataset
  | .yolo p => buildYolo p
  | .grounding g => buildGrounding g

/-- Embedding of the train-mode branch of
`YOLOETrainerFromScratch.build_dataset`: build one dataset per source entry,
then return `YOLOConcatDataset(datasets) if len(datasets) > 1 else
datasets[0]`. Indexing `datasets[0]` on an empty list raises, modelled as
`none`. The intervening embedding-generation and `set_embeddings` injection
steps mutate only the datasets' transform pipelines (not modelled here) and
change neither the list of datasets nor their sample sequences. -/
def build_dataset_train (buildYolo : String → Dataset)
    (buildGrounding : GroundingEntry → Dataset) (img_path : List DataEntry) :
    Option BuiltDataset :=
  let datasets := img_path.map (buildEntry buildYolo buildGrounding)
  if datasets.length > 1 then some (.concat datasets)
  else (datasets.head?).map .single

/-! ## Model construction (`get_model` variants) -/

/-- Arguments the two `get_model` variants pass to the `YOLOEModel`
constructor: channel count and effective label count. -/
structure YOLOEModelArgs where
  ch : Nat
  nc : Nat
  deriving Repr, DecidableEq

/-- Embedding of `YOLOETrainer.get_model`: constructs
`YOLOEModel(..., ch=3, nc=min(self.data["nc"], 80), ...)`. -/
def yoloETrainer_get_model (data_nc : Nat) : YOLOEModelArgs :=
  ⟨3, min data_nc 80⟩

/-- Embedding of `YOLOEPETrainer.get_model`: constructs
`YOLOEModel(..., ch=3, nc=self.data["nc"], ...)` (no clamp); the subsequent
head surgery does not alter `nc`. -/
def yoloEPETrainer_get_model (data_nc : Nat) : YOLOEModelArgs :=
  ⟨3, data_nc⟩

/-! ## Dataset-path resolution (`get_dataset`) -/

/-- Whether `pat` is a prefix of `l` (over decidable equality). -/
def listHasPref [DecidableEq α] : List α → List α → Bool
  | _, [] => true
  | [], _ :: _ => false
  | x :: xs, y :: ys => x = y && listHasPref xs ys

/-- Whether `pat` occurs as a contiguous run inside `l`. -/
def listHasInfix [DecidableEq α] (l pat : List α) : Bool :=
  match l with
  | [] => pat.isEmpty
  | _ :: xs => listHasPref l pat || listHasInfix xs pat

/-- Model of the Python substring test `pat in s`. -/
def strContains (s pat : String) : Bool :=
  listHasInfix s.toList pat.toList

/-- The dict returned by `check_det_dataset` for one dataset yaml, restricted
to the keys `get_dataset` reads: the per-split paths, the optional `minival`
relative path, the dataset root `path`, and `nc`/`names`. Paths are kept as
plain strings; `Path` concatenation `path / minival` is string joining with
`"/"`. -/
structure DatasetInfo where
  train : String
  val : String
  minival : Option String
  path : String
  nc : Nat
  names : List String
  deriving Repr, DecidableEq

/-- One split entry of `self.args.data` (the value under `"train"` or
`"val"`): a `yolo_data` list of dataset-yaml paths and an optional
`grounding_data` list of grounding dicts (Python also accepts a single dict,
normalised to a one-element list). A missing `yolo_data` key defaults to
`[]` via `.get("yolo_data", [])`. -/
structure SplitCfg where
  yolo_data : List String
  grounding_data : Option (List GroundingEntry)
  deriving Repr, DecidableEq

/-- The `self.args.data` configuration dict. `none` models a `"train"` /
`"val"` entry that is missing or falsy — exactly what the guard
`data_yaml.get("train", False)` tests. -/
structure DataYaml where
  train : Option SplitCfg
  val : Option SplitCfg
  deriving Repr, DecidableEq

/-- The `final_data` dict built by `get_dataset` and stored as `self.data`:
per-split source lists plus `nc`, `names` and `path` copied from the single
validation dataset. -/
structure FinalData where
  train : List DataEntry
  val : List DataEntry
  nc : Nat
  names : List String
  path : String
  deriving Repr, DecidableEq

/-- Embedding of lines 206-212 of `get_dataset` up to the computation of
`val_split`: `"minival" if "lvis" in data["val"][0]["val"] else "val"`.
Returns `none` when an assert on the way fails. -/
def get_dataset_val_split (checkDet : String → DatasetInfo) (cfg : DataYaml) :
    Option String :=
  match cfg.train, cfg.val with
  | some _, some valCfg =>
    match valCfg.yolo_data.map checkDet with
    | [val0] => some (if strContains val0.val "lvis" then "minival" else "val")
    | _ => none
  | _, _ => none

/-- Embedding of `YOLOETrainerFromScratch.get_dataset`. `checkDet` abstracts
`check_det_dataset` (filesystem / download I/O); the second component of the
result is the list of arguments `check_det_dataset` is invoked on, in
evaluation order (the dict comprehension runs only after both truthiness
asserts pass, and visits `train` before `val`). A failed `assert`, and the
`KeyError` raised when `val_split = "minival"` but the validation dataset
has no `minival` key, are `Except.error`. On success the payload is
`(final_data, (final_data["train"], final_data["val"][0]))` collapsed to
`final_data` paired with the returned validation entry, since the returned
train component equals `final_data.train`. -/
def get_dataset (checkDet : String → DatasetInfo) (cfg : DataYaml) :
    Except String (FinalData × DataEntry) × List String :=
  match cfg.train with
  | none => (.error "train dataset not found", [])
  | some trainCfg =>
    match cfg.val with
    | none => (.error "validation dataset not found", [])
    | some valCfg =>
      let calls := trainCfg.yolo_data ++ valCfg.yolo_data
      let dataTrain := trainCfg.yolo_data.map checkDet
      match valCfg.yolo_data.map checkDet with
      | [val0] =>
        let valSplitMinival := strContains val0.val "lvis"
        let val0' :=
          match val0.minival with
          | none => val0
          | some m => { val0 with minival := some (val0.path ++ "/" ++ m) }
        let valEntryE : Except String String :=
          if valSplitMinival then
            match val0'.minival with
            | some m => .ok m
            | none => .error "KeyError: minival"
          else .ok val0.val
        match valEntryE with
        | .error e => (.error e, calls)
        | .ok vpath =>
          let trainEntries :=
            dataTrain.map (fun d => DataEntry.yolo d.train)
              ++ (trainCfg.grounding_data.getD []).map DataEntry.grounding
          let valEntries :=
            [DataEntry.yolo vpath] ++ (valCfg.grounding_data.getD []).map DataEntry.grounding
          let fd : FinalData := ⟨trainEntries, valEntries, val0.nc, val0.names, val0.path⟩
          (.ok (fd, DataEntry.yolo vpath), calls)
      | other =>
        let n := other.length
        (.error s!"Only support validating on 1 dataset for now, but got {n}.", calls)

/-- Embedding of the split selection in
`YOLOETrainerFromScratch.final_eval`: with `val =
self.args.data["val"]["yolo_data"][0]` (a path string in this model, so the
`isinstance(val, str)` guard holds), the evaluation split is
`"minival" if "lvis" in val else "val"`. -/
def final_eval_split (val : String) : String :=
  if strContains val "lvis" then "minival" else "val"

/-! ## Concrete instances used to evaluate the embedding -/

/-- A concrete `build_yolo_dataset` stand-in. -/
def demoYolo : String → Dataset := fun p => ⟨p, [0], none, none⟩

/-- A concrete `build_grounding` stand-in. -/
def demoGrounding : GroundingEntry → Dataset := fun g => ⟨g.img_path, [1], none, none⟩

/-- A concrete `check_det_dataset` stand-in (no `lvis` in any path). -/
def demoCheckDet : String → DatasetInfo :=
  fun s => ⟨s ++ "/train", s ++ "/val", none, "/root", 7, ["x"]⟩

/-- A concrete `check_det_dataset` stand-in resolving to an lvis-style
dataset with a `minival` entry. -/
def lvisCheckDet : String → DatasetInfo :=
  fun _ => ⟨"t", "lvis/val", some "mini.json", "/r", 3, []⟩

/-- A concrete validation split configuration with two datasets. -/
def demoValCfg2 : SplitCfg := ⟨["v1", "v2"], none⟩

/-! ## Helper lemmas -/

theorem splitChunks_flatten (n : Nat) (l : List α) : (splitChunks n l).flatten = l := by
  have H : ∀ (k : Nat) (l : List α), l.length ≤ k → (splitChunks n l).flatten = l := by
    intro k
    induction k with
    | zero =>
      intro l hl
      cases l with
      | nil => rw [splitChunks]; rfl
      | cons x xs => simp at hl
    | succ k ih =>
      intro l hl
      cases l with
      | nil => rw [splitChunks]; rfl
      | cons x xs =>
        simp only [List.length_cons] at hl
        rw [splitChunks, List.flatten_cons,
          ih (xs.drop (n - 1)) (by simp only [List.length_drop]; omega)]
        simp only [List.cons_append, List.take_append_drop]
  exact H l.length l (Nat.le_refl _)

theorem generate_data_embeddings_newCache {T V : Type} (tok : String → T) (enc : T → V)
    (texts : List String) (batch : Nat) (cache : Option (List (String × V))) :
    (generate_data_embeddings tok enc texts batch cache).newCache =
      some (generate_data_embeddings tok enc texts batch cache).result := by
  cases cache <;> rfl

theorem mem_get_neg_texts_of_mem (category_freq : List (String × Nat)) (threshold : Nat)
    (k : String) (v : Nat) (hmem : (k, v) ∈ category_freq) (hv : threshold ≤ v) :
    k ∈ get_neg_texts category_freq threshold := by
  simp only [get_neg_texts, List.mem_map, List.mem_filter]
  exact ⟨(k, v), ⟨hmem, by simpa using hv⟩, rfl⟩

theorem lookupFreq_cons (p : String × Nat) (rest : List (String × Nat)) (k : String) :
    lookupFreq (p :: rest) k = if p.1 = k then p.2 else lookupFreq rest k := by
  simp only [lookupFreq, List.find?_cons]
  by_cases h : p.1 = k <;> simp [h]

theorem lookupFreq_bumpFreq (freq : List (String × Nat)) (k k' : String) (v : Nat) :
    lookupFreq (bumpFreq freq k v) k' =
      lookupFreq freq k' + (if k = k' then v else 0) := by
  induction freq with
  | nil =>
    by_cases h : k = k' <;> simp [bumpFreq, lookupFreq_cons, lookupFreq, h]
  | cons p rest ih =>
    simp only [bumpFreq]
    by_cases hpk : p.1 = k
    · rw [if_pos hpk, lookupFreq_cons, lookupFreq_cons]
      by_cases hpk' : p.1 = k'
      · have hkk' : k = k' := hpk ▸ hpk'
        simp [hpk', hkk']
      · have hkk' : ¬k = k' := fun h => hpk' (hpk.trans h)
        simp [hpk', hkk']
    · rw [if_neg hpk, lookupFreq_cons, lookupFreq_cons]
      by_cases hpk' : p.1 = k'
      · have hkk' : ¬k = k' := fun h => hpk (hpk'.trans h.symm)
        simp [hpk', hkk']
      · simp [hpk', ih]

theorem lookupFreq_addDatasetFreq (entries freq : List (String × Nat)) (k : String) :
    lookupFreq (addDatasetFreq freq entries) k =
      lookupFreq freq k + ((entries.filter (fun p => p.1 = k)).map Prod.snd).sum := by
  induction entries generalizing freq with
  | nil => simp [addDatasetFreq]
  | cons p rest ih =>
    simp only [addDatasetFreq, List.foldl_cons] at *
    rw [ih, lookupFreq_bumpFreq]
    by_cases h : p.1 = k
    · simp [List.filter_cons, h]
      omega
    · simp [List.filter_cons, h]

theorem lookupFreq_categoryFreq (datasets : List Dataset) (k : String) :
    lookupFreq (categoryFreq datasets) k =
      (datasets.map (fun d => datasetCount d k)).sum := by
  suffices H : ∀ (freq : List (String × Nat)),
      lookupFreq
        (datasets.foldl
          (fun f d =>
            match d.category_freq with
            | none => f
            | some entries => addDatasetFreq f entries)
          freq) k =
        lookupFreq freq k + (datasets.map (fun d => datasetCount d k)).sum by
    simpa [lookupFreq, categoryFreq] using H []
  induction datasets with
  | nil => simp
  | cons d rest ih =>
    intro freq
    simp only [List.foldl_cons, List.map_cons, List.sum_cons]
    cases hd : d.category_freq with
    | none => rw [ih]; simp [datasetCount, hd]
    | some entries => rw [ih, lookupFreq_addDatasetFreq]; simp [datasetCount, hd]; omega

theorem keys_nodup_val_unique {β : Type} (l : List (String × β))
    (hnd : (l.map Prod.fst).Nodup) (k : String) (v v' : β)
    (h1 : (k, v) ∈ l) (h2 : (k, v') ∈ l) : v = v' := by
  induction l with
  | nil => cases h1
  | cons p rest ih =>
    simp only [List.map_cons, List.nodup_cons] at hnd
    rcases List.mem_cons.mp h1 with h1 | h1 <;> rcases List.mem_cons.mp h2 with h2 | h2
    · rw [← h2] at h1
      exact congrArg Prod.snd h1
    · exfalso
      apply hnd.1
      rw [show p.1 = k from congrArg Prod.fst h1.symm]
      exact List.mem_map.mpr ⟨(k, v'), h2, rfl⟩
    · exfalso
      apply hnd.1
      rw [show p.1 = k from congrArg Prod.fst h2.symm]
      exact List.mem_map.mpr ⟨(k, v), h1, rfl⟩
    · exact ih hnd.2 h1 h2

theorem sum_map_filter_eq {α : Type} (p : α → Bool) (f : α → Nat) (l : List α)
    (h : ∀ a ∈ l, p a = false → f a = 0) :
    (((l.filter p).map f).sum : Nat) = (l.map f).sum := by
  induction l with
  | nil => rfl
  | cons a rest ih =>
    have hrest : ∀ b ∈ rest, p b = false → f b = 0 := fun b hb => h b (List.mem_cons_of_mem a hb)
    cases hp : p a with
    | true => simp [List.filter_cons, hp, ih hrest]
    | false => simp [List.filter_cons, hp, ih hrest, h a (List.mem_cons_self a rest) hp]

/-! ## Claim theorems -/

/-- C1: if the cache file exists, `generate_data_embeddings` returns the
stored mapping verbatim — for every requested label set, without invoking
the tokenizer/text encoder and without validating the stored keys — and a
second call reusing the cache file a first call leaves behind returns
exactly the first call's persisted mapping, again without invoking the
encoder. -/
theorem generate_data_embeddings_cache_hit {T V : Type} (tok : String → T) (enc : T → V)
    (texts texts₂ : List String) (batch : Nat) (stored : List (String × V))
    (cache₀ : Option (List (String × V))) :
    ((generate_data_embeddings tok enc texts batch (some stored)).result = stored
      ∧ (generate_data_embeddings tok enc texts batch (some stored)).encoderInvoked = false
      ∧ (generate_data_embeddings tok enc texts batch (some stored)).newCache = some stored)
    ∧ ((generate_data_embeddings tok enc texts₂ batch
          ((generate_data_embeddings tok enc texts batch cache₀).newCache)).result
        = (generate_data_embeddings tok enc texts batch cache₀).result
      ∧ (generate_data_embeddings tok enc texts₂ batch
          ((generate_data_embeddings tok enc texts batch cache₀).newCache)).encoderInvoked
        = false) := by
  refine ⟨⟨rfl, rfl, rfl⟩, ?_⟩
  rw [generate_data_embeddings_newCache]
  exact ⟨rfl, rfl⟩

/-- C2: with threshold 100, `_get_neg_texts` returns exactly the labels of
the frequency table whose count is at least 100: a label recorded with
count `v` is in the output iff `100 ≤ v` (dict keys are unique, hence the
`Nodup` hypothesis). -/
theorem get_neg_texts_mem_iff (category_freq : List (String × Nat))
    (hnd : (category_freq.map Prod.fst).Nodup) (k : String) (v : Nat)
    (hmem : (k, v) ∈ category_freq) :
    k ∈ get_neg_texts category_freq 100 ↔ 100 ≤ v := by
  constructor
  · intro hk
    rcases List.mem_map.mp hk with ⟨q, hq, hqk⟩
    rcases List.mem_filter.mp hq with ⟨hqmem, hqv⟩
    have hq' : (k, q.2) ∈ category_freq := by
      rw [← hqk]
      simpa using hqmem
    have hveq : q.2 = v := keys_nodup_val_unique category_freq hnd k q.2 v hq' hmem
    have hqv' : 100 ≤ q.2 := by simpa using hqv
    omega
  · intro hv
    exact mem_get_neg_texts_of_mem category_freq 100 k v hmem hv

/-- Witness for C2 at the boundary table `[("a", 99), ("b", 100)]`: the
label with count 100 is included and the label with count 99 is excluded. -/
theorem get_neg_texts_mem_iff_witness :
    ("b" ∈ get_neg_texts [("a", 99), ("b", 100)] 100 ↔ 100 ≤ 100)
    ∧ ("a" ∈ get_neg_texts [("a", 99), ("b", 100)] 100 ↔ 100 ≤ 99) :=
  ⟨get_neg_texts_mem_iff [("a", 99), ("b", 100)] (by decide) "b" 100 (by decide),
   get_neg_texts_mem_iff [("a", 99), ("b", 100)] (by decide) "a" 99 (by decide)⟩

/-- C6 counterexample: a call with label set `["b"]` on a cache file storing
a mapping with key `"a"` returns keys `["a"]`, not the requested label set —
the cache-hit path does not enforce the keys-are-exactly-S invariant. -/
theorem generate_data_embeddings_stale_cache_keys :
    ¬((generate_data_embeddings (fun _ => (0 : Nat)) (fun t => t) ["b"] 1
        (some [("a", (5 : Nat))])).result.map Prod.fst = ["b"]) := by
  decide

/-- C6 (amended): on the cache-miss path (no file at the cache path) the
keys of the returned mapping are exactly the label set passed in, the built
mapping is persisted to the cache file, and the text model is invoked; on a
cache hit the stored mapping is returned with its own keys. -/
theorem generate_data_embeddings_miss_keys {T V : Type} (tok : String → T) (enc : T → V)
    (texts : List String) (batch : Nat) :
    ((generate_data_embeddings tok enc texts batch none).result.map Prod.fst = texts)
    ∧ ((generate_data_embeddings tok enc texts batch none).newCache =
        some (generate_data_embeddings tok enc texts batch none).result)
    ∧ ((generate_data_embeddings tok enc texts batch none).encoderInvoked = true) := by
  refine ⟨?_, rfl, rfl⟩
  show ((texts.zip (((splitChunks batch (texts.map tok)).map (List.map enc)).flatten)).map
    Prod.fst) = texts
  rw [← List.map_flatten, splitChunks_flatten]
  exact List.map_fst_zip texts _ (by simp)

/-- C7: the aggregated category-frequency table maps each label to the sum
of its counts over the constituent datasets; each dataset exposing
`category_freq` contributes its counts and datasets lacking the attribute
contribute nothing, so the total equals the sum over exactly the exposing
datasets (the aggregation is total — no error case exists). -/
theorem categoryFreq_sums_over_exposing_datasets (datasets : List Dataset) (k : String) :
    lookupFreq (categoryFreq datasets) k = (datasets.map (fun d => datasetCount d k)).sum
    ∧ lookupFreq (categoryFreq datasets) k =
      ((datasets.filter (fun d => d.category_freq.isSome)).map (fun d => datasetCount d k)).sum := by
  refine ⟨lookupFreq_categoryFreq datasets k, ?_⟩
  rw [lookupFreq_categoryFreq datasets k]
  refine (sum_map_filter_eq _ _ _ ?_).symm
  intro d _ hd
  have hnone : d.category_freq = none := by
    cases h : d.category_freq
    · rfl
    · rw [h] at hd
      simp at hd
  simp [datasetCount, hnone]

/-- C8: `YOLOETrainer.get_model` passes the clamped label count
`min(nc, 80)` to the `YOLOEModel` constructor (so never more than 80),
while `YOLOEPETrainer.get_model` passes `nc` unclamped. -/
theorem get_model_nc_clamping (data_nc : Nat) :
    (yoloETrainer_get_model data_nc).nc = min data_nc 80
    ∧ (yoloEPETrainer_get_model data_nc).nc = data_nc
    ∧ (yoloETrainer_get_model data_nc).nc ≤ 80 :=
  ⟨rfl, rfl, Nat.min_le_right _ _⟩

/-- C3: in train mode, a single-source list yields that source's dataset
itself (not wrapped in a concatenation), and a list of two or more sources
yields a `YOLOConcatDataset` over the per-source datasets whose iteration
order follows the order of the input path list. -/
theorem build_dataset_train_wrapping (buildYolo : String → Dataset)
    (buildGrounding : GroundingEntry → Dataset) (img_path : List DataEntry) :
    (∀ e, img_path = [e] →
      build_dataset_train buildYolo buildGrounding img_path =
        some (BuiltDataset.single (buildEntry buildYolo buildGrounding e)))
    ∧ (2 ≤ img_path.length →
      build_dataset_train buildYolo buildGrounding img_path =
        some (BuiltDataset.concat (img_path.map (buildEntry buildYolo buildGrounding)))
      ∧ (BuiltDataset.concat (img_path.map (buildEntry buildYolo buildGrounding))).samples =
        (img_path.map (fun e => (buildEntry buildYolo buildGrounding e).items)).flatten) := by
  constructor
  · rintro e rfl
    simp [build_dataset_train]
  · intro h2
    constructor
    · simp only [build_dataset_train]
      rw [if_pos (by simp only [List.length_map]; omega)]
    · simp [BuiltDataset.samples, List.map_map]
      rfl

/-- Witness for C3: one source stays unwrapped; two sources are
concatenated in order. -/
theorem build_dataset_train_wrapping_witness :
    (build_dataset_train demoYolo demoGrounding [DataEntry.yolo "a"] =
      some (BuiltDataset.single (buildEntry demoYolo demoGrounding (DataEntry.yolo "a"))))
    ∧ (build_dataset_train demoYolo demoGrounding
        [DataEntry.yolo "a", DataEntry.grounding ⟨"b", "j"⟩] =
      some (BuiltDataset.concat
        ([DataEntry.yolo "a", DataEntry.grounding ⟨"b", "j"⟩].map
          (buildEntry demoYolo demoGrounding)))
      ∧ (BuiltDataset.concat
          ([DataEntry.yolo "a", DataEntry.grounding ⟨"b", "j"⟩].map
            (buildEntry demoYolo demoGrounding))).samples =
        ([DataEntry.yolo "a", DataEntry.grounding ⟨"b", "j"⟩].map
          (fun e => (buildEntry demoYolo demoGrounding e).items)).flatten) :=
  ⟨(build_dataset_train_wrapping demoYolo demoGrounding [DataEntry.yolo "a"]).1
      (DataEntry.yolo "a") rfl,
   (build_dataset_train_wrapping demoYolo demoGrounding
      [DataEntry.yolo "a", DataEntry.grounding ⟨"b", "j"⟩]).2 (by decide)⟩

/-- C4: when the configuration has train and validation entries but the
validation entry resolves to a number of datasets different from one,
`get_dataset` fails with the multiple-validation-datasets assertion error
instead of returning. -/
theorem get_dataset_multi_val_fails (checkDet : String → DatasetInfo) (cfg : DataYaml)
    (trainCfg valCfg : SplitCfg) (ht : cfg.train = some trainCfg)
    (hv : cfg.val = some valCfg) (hn : valCfg.yolo_data.length ≠ 1) :
    (get_dataset checkDet cfg).1 =
      Except.error
        s!"Only support validating on 1 dataset for now, but got {valCfg.yolo_data.length}." := by
  cases hd : valCfg.yolo_data with
  | nil => simp [get_dataset, ht, hv, hd]
  | cons x rest =>
    cases rest with
    | nil => rw [hd] at hn; simp at hn
    | cons y rest' => simp [get_dataset, ht, hv, hd]

/-- Witness for C4: a configuration with two validation datasets fails. -/
theorem get_dataset_multi_val_fails_witness :
    (get_dataset demoCheckDet ⟨some ⟨["t"], none⟩, some demoValCfg2⟩).1 =
      Except.error
        s!"Only support validating on 1 dataset for now, but got {demoValCfg2.yolo_data.length}." :=
  get_dataset_multi_val_fails demoCheckDet ⟨some ⟨["t"], none⟩, some demoValCfg2⟩
    ⟨["t"], none⟩ demoValCfg2 rfl rfl (by decide)

/-- C5: a configuration with no (or falsy) `"train"` entry makes
`get_dataset` fail with the train-dataset assertion error, with an empty
`check_det_dataset` call log — i.e. before any dataset-checking I/O. -/
theorem get_dataset_missing_train (checkDet : String → DatasetInfo) (cfg : DataYaml)
    (h : cfg.train = none) :
    get_dataset checkDet cfg = (.error "train dataset not found", []) := by
  simp [get_dataset, h]

/-- Witness for C5: the empty configuration fails before any I/O. -/
theorem get_dataset_missing_train_witness :
    get_dataset demoCheckDet ⟨none, none⟩ = (.error "train dataset not found", []) :=
  get_dataset_missing_train demoCheckDet ⟨none, none⟩ rfl

/-- C9: whenever `get_dataset` returns, the unified descriptor's `nc`,
`names` and `path` are those of the single validation dataset (the one
`check_det_dataset` result for the validation yaml path) — for every
`checkDet` and every training configuration, so never taken from a training
dataset. -/
theorem get_dataset_descriptor_from_val (checkDet : String → DatasetInfo) (cfg : DataYaml)
    (trainCfg valCfg : SplitCfg) (p : String) (fd : FinalData) (v : DataEntry)
    (ht : cfg.train = some trainCfg) (hv : cfg.val = some valCfg)
    (hy : valCfg.yolo_data = [p])
    (hok : (get_dataset checkDet cfg).1 = .ok (fd, v)) :
    fd.nc = (checkDet p).nc ∧ fd.names = (checkDet p).names ∧ fd.path = (checkDet p).path := by
  simp only [get_dataset, ht, hv, hy, List.map_cons, List.map_nil] at hok
  split at hok
  · simp at hok
  · rcases hok with ⟨hfd, hvv⟩
    exact ⟨rfl, rfl, rfl⟩

/-- Witness for C9: on an accepted concrete configuration the descriptor
fields equal those of the validation dataset. -/
theorem get_dataset_descriptor_from_val_witness :
    (FinalData.mk [DataEntry.yolo "t/train"] [DataEntry.yolo "vv/val"] 7 ["x"] "/root").nc =
      (demoCheckDet "vv").nc
    ∧ (FinalData.mk [DataEntry.yolo "t/train"] [DataEntry.yolo "vv/val"] 7 ["x"] "/root").names =
      (demoCheckDet "vv").names
    ∧ (FinalData.mk [DataEntry.yolo "t/train"] [DataEntry.yolo "vv/val"] 7 ["x"] "/root").path =
      (demoCheckDet "vv").path :=
  get_dataset_descriptor_from_val demoCheckDet ⟨some ⟨["t"], none⟩, some ⟨["vv"], none⟩⟩
    ⟨["t"], none⟩ ⟨["vv"], none⟩ "vv"
    ⟨[DataEntry.yolo "t/train"], [DataEntry.yolo "vv/val"], 7, ["x"], "/root"⟩
    (DataEntry.yolo "vv/val") rfl rfl rfl rfl

/-- C10: the validation split chosen by `get_dataset` is `"minival"` iff
the substring `"lvis"` occurs in the validation dataset's `val` path (and
`"val"` otherwise); accordingly the returned validation entry is the
dataset's `val` path in the no-lvis case and its root-joined `minival` path
in the lvis case; and `final_eval` selects the evaluation split by the same
substring rule. -/
theorem get_dataset_lvis_split_rule (checkDet : String → DatasetInfo) (cfg : DataYaml)
    (trainCfg valCfg : SplitCfg) (p : String)
    (ht : cfg.train = some trainCfg) (hv : cfg.val = some valCfg)
    (hy : valCfg.yolo_data = [p]) :
    (get_dataset_val_split checkDet cfg = some "minival" ↔
      strContains (checkDet p).val "lvis" = true)
    ∧ (get_dataset_val_split checkDet cfg = some "val" ↔
      strContains (checkDet p).val "lvis" = false)
    ∧ (strContains (checkDet p).val "lvis" = false →
      ∀ fd v, (get_dataset checkDet cfg).1 = .ok (fd, v) → v = .yolo (checkDet p).val)
    ∧ (strContains (checkDet p).val "lvis" = true →
      ∀ m, (checkDet p).minival = some m →
      ∀ fd v, (get_dataset checkDet cfg).1 = .ok (fd, v) →
        v = .yolo ((checkDet p).path ++ "/" ++ m))
    ∧ (∀ s, final_eval_split s = "minival" ↔ strContains s "lvis" = true) := by
  refine ⟨?_, ?_, ?_, ?_, ?_⟩
  · simp only [get_dataset_val_split, ht, hv, hy, List.map_cons, List.map_nil]
    cases hc : strContains (checkDet p).val "lvis" <;> simp
  · simp only [get_dataset_val_split, ht, hv, hy, List.map_cons, List.map_nil]
    cases hc : strContains (checkDet p).val "lvis" <;> simp
  · intro hc fd v hok
    simp [get_dataset, ht, hv, hy, hc] at hok
    rcases hok with ⟨hfd, hvv⟩
    exact hvv.symm
  · intro hc m hm fd v hok
    simp [get_dataset, ht, hv, hy, hc, hm] at hok
    rcases hok with ⟨hfd, hvv⟩
    exact hvv.symm
  · intro s
    simp only [final_eval_split]
    cases hc : strContains s "lvis" <;> simp

/-- Witness for C10: for an lvis-style validation dataset the split is
`"minival"`, and `final_eval` applies the same rule to a concrete path. -/
theorem get_dataset_lvis_split_rule_witness :
    (get_dataset_val_split lvisCheckDet ⟨some ⟨["t"], none⟩, some ⟨["v"], none⟩⟩ =
        some "minival" ↔ strContains (lvisCheckDet "v").val "lvis" = true)
    ∧ (final_eval_split "lvis/val" = "minival" ↔ strContains "lvis/val" "lvis" = true) :=
  ⟨(get_dataset_lvis_split_rule lvisCheckDet ⟨some ⟨["t"], none⟩, some ⟨["v"], none⟩⟩
      ⟨["t"], none⟩ ⟨["v"], none⟩ "v" rfl rfl rfl).1,
   (get_dataset_lvis_split_rule lvisCheckDet ⟨some ⟨["t"], none⟩, some ⟨["v"], none⟩⟩
      ⟨["t"], none⟩ ⟨["v"], none⟩ "v" rfl rfl rfl).2.2.2.2 "lvis/val"⟩

end YOLOE
